import Mathlib

/-!
Verification development for the polymarket_alpha correlation-and-prioritization
pipeline.  Numeric quantities computed by the Python code with machine floats
are modelled over the rationals (database scores, prices, engagement weights)
and over the reals (cosine similarity, which involves a square root).
Each definition is a shallow embedding of the function of the same name in the
source tree; external collaborators (embedding service, generative adjudicator,
HTTP price feed, notification transport, wall clock) appear as explicit
oracle parameters.
-/

namespace PolymarketAlpha

/-! ### Similarity Scorer

`helpers/correlation_engine.py`, `calculate_cosine_similarity` (lines 90-95):

    def calculate_cosine_similarity(v1, v2):
        dot_product = np.dot(v1, v2)
        norm_v1 = np.linalg.norm(v1)
        norm_v2 = np.linalg.norm(v2)
        if norm_v1 == 0 or norm_v2 == 0: return 0.0
        return dot_product / (norm_v1 * norm_v2)

Vectors are lists of reals; `np.dot` on equal-length 1-d arrays is the sum of
pointwise products and `np.linalg.norm` is the Euclidean norm. -/

def dotList (v1 v2 : List ℝ) : ℝ := (List.zipWith (· * ·) v1 v2).sum

def sumSq (v : List ℝ) : ℝ := (v.map fun x => x * x).sum

noncomputable def normList (v : List ℝ) : ℝ := Real.sqrt (sumSq v)

open Classical in
noncomputable def calculate_cosine_similarity (v1 v2 : List ℝ) : ℝ :=
  if normList v1 = 0 ∨ normList v2 = 0 then 0
  else dotList v1 v2 / (normList v1 * normList v2)

lemma dotList_comm (v1 v2 : List ℝ) : dotList v1 v2 = dotList v2 v1 := by
  unfold dotList
  rw [List.zipWith_comm_of_comm]
  exact fun a b => mul_comm a b

lemma sumSq_nonneg (v : List ℝ) : 0 ≤ sumSq v := by
  apply List.sum_nonneg
  intro a ha
  rcases List.mem_map.mp ha with ⟨x, _, rfl⟩
  exact mul_self_nonneg x

lemma normList_nonneg (v : List ℝ) : 0 ≤ normList v := Real.sqrt_nonneg _

lemma dotList_eq_sum (v1 v2 : List ℝ) :
    dotList v1 v2 =
      ∑ i ∈ Finset.range (min v1.length v2.length), v1.getD i 0 * v2.getD i 0 := by
  induction v1 generalizing v2 with
  | nil => simp [dotList]
  | cons x xs ih =>
    cases v2 with
    | nil => simp [dotList]
    | cons y ys =>
      have hx : dotList (x :: xs) (y :: ys) = x * y + dotList xs ys := by
        simp [dotList]
      rw [hx, ih ys]
      have hmin : min (x :: xs).length (y :: ys).length = min xs.length ys.length + 1 := by
        simp [List.length_cons, Nat.succ_min_succ]
      rw [hmin, Finset.sum_range_succ']
      simp [add_comm]

lemma sumSq_eq_sum (v : List ℝ) :
    sumSq v = ∑ i ∈ Finset.range v.length, v.getD i 0 ^ 2 := by
  induction v with
  | nil => simp [sumSq]
  | cons x xs ih =>
    have hx : sumSq (x :: xs) = x * x + sumSq xs := by simp [sumSq]
    rw [hx, ih, List.length_cons, Finset.sum_range_succ']
    simp [add_comm, sq]

lemma dotList_sq_le (v1 v2 : List ℝ) (h : v1.length = v2.length) :
    dotList v1 v2 ^ 2 ≤ sumSq v1 * sumSq v2 := by
  rw [dotList_eq_sum, sumSq_eq_sum, sumSq_eq_sum, h, min_self]
  exact Finset.sum_mul_sq_le_sq_mul_sq _ _ _

lemma normList_replicate_zero (n : ℕ) : normList (List.replicate n 0) = 0 := by
  have h : sumSq (List.replicate n (0 : ℝ)) = 0 := by
    simp [sumSq, List.map_replicate]
  simp [normList, h, Real.sqrt_zero]

/-- Claim C8: for equal-length real vectors the cosine-similarity scorer is
symmetric, returns a value in `[-1, 1]`, returns exactly `0` whenever either
vector has zero magnitude, and in particular returns `0` against the all-zero
vector. -/
theorem similarity_scorer_contract (v1 v2 : List ℝ) (h : v1.length = v2.length) :
    calculate_cosine_similarity v1 v2 = calculate_cosine_similarity v2 v1 ∧
    -1 ≤ calculate_cosine_similarity v1 v2 ∧
    calculate_cosine_similarity v1 v2 ≤ 1 ∧
    ((normList v1 = 0 ∨ normList v2 = 0) → calculate_cosine_similarity v1 v2 = 0) ∧
    calculate_cosine_similarity (List.replicate v2.length 0) v2 = 0 := by
  classical
  have hzero : ∀ w1 w2 : List ℝ, (normList w1 = 0 ∨ normList w2 = 0) →
      calculate_cosine_similarity w1 w2 = 0 := by
    intro w1 w2 hw
    unfold calculate_cosine_similarity
    rw [if_pos hw]
  have hsymm : calculate_cosine_similarity v1 v2 = calculate_cosine_similarity v2 v1 := by
    by_cases hc : normList v1 = 0 ∨ normList v2 = 0
    · rw [hzero v1 v2 hc, hzero v2 v1 hc.symm]
    · unfold calculate_cosine_similarity
      rw [if_neg hc, if_neg (fun hc2 => hc hc2.symm), dotList_comm, mul_comm]
  have hbounds : -1 ≤ calculate_cosine_similarity v1 v2 ∧
      calculate_cosine_similarity v1 v2 ≤ 1 := by
    by_cases hc : normList v1 = 0 ∨ normList v2 = 0
    · rw [hzero v1 v2 hc]; norm_num
    · push_neg at hc
      have h1 : 0 < normList v1 := lt_of_le_of_ne (normList_nonneg v1) (Ne.symm hc.1)
      have h2 : 0 < normList v2 := lt_of_le_of_ne (normList_nonneg v2) (Ne.symm hc.2)
      have hprod : 0 < normList v1 * normList v2 := mul_pos h1 h2
      have habs : |dotList v1 v2| ≤ normList v1 * normList v2 := by
        have hsq : dotList v1 v2 ^ 2 ≤ sumSq v1 * sumSq v2 := dotList_sq_le v1 v2 h
        have hcalc : normList v1 * normList v2 = Real.sqrt (sumSq v1 * sumSq v2) := by
          rw [normList, normList, Real.sqrt_mul (sumSq_nonneg v1)]
        rw [hcalc, ← Real.sqrt_sq_eq_abs]
        exact Real.sqrt_le_sqrt hsq
      have hquot : |calculate_cosine_similarity v1 v2| ≤ 1 := by
        unfold calculate_cosine_similarity
        rw [if_neg (by push_neg; exact hc)]
        rw [abs_div, abs_of_pos hprod]
        exact (div_le_one hprod).mpr habs
      exact abs_le.mp hquot
  refine ⟨hsymm, hbounds.1, hbounds.2, hzero v1 v2, ?_⟩
  exact hzero _ v2 (Or.inl (normList_replicate_zero _))

theorem similarity_scorer_contract_witness :
    ([(1 : ℝ), 0].length = [(0 : ℝ), 1].length) ∧
    (calculate_cosine_similarity [(1 : ℝ), 0] [(0 : ℝ), 1] =
        calculate_cosine_similarity [(0 : ℝ), 1] [(1 : ℝ), 0] ∧
      -1 ≤ calculate_cosine_similarity [(1 : ℝ), 0] [(0 : ℝ), 1] ∧
      calculate_cosine_similarity [(1 : ℝ), 0] [(0 : ℝ), 1] ≤ 1 ∧
      ((normList [(1 : ℝ), 0] = 0 ∨ normList [(0 : ℝ), 1] = 0) →
        calculate_cosine_similarity [(1 : ℝ), 0] [(0 : ℝ), 1] = 0) ∧
      calculate_cosine_similarity (List.replicate [(0 : ℝ), 1].length 0) [(0 : ℝ), 1] = 0) :=
  ⟨rfl, similarity_scorer_contract [(1 : ℝ), 0] [(0 : ℝ), 1] rfl⟩

/-! ### Data model (`helpers/database.py`, `setup_database`)

One Lean record per table row.  `sent_at_utc` is a wall-clock timestamp set by
SQLite; only its presence is modelled (`sentAtRecorded`).  The SQLite
`AUTOINCREMENT` id of `sent_correlations` is modelled by `nextCorrelationRowId`. -/

structure MarketRow where
  id : String
  question : String
  slug : String
  marketUrl : String
  parentEventId : Option String
  imageUrl : Option String
  yesPrice : ℚ
  noPrice : ℚ
  endDateUtc : String
  embeddingText : String
  embedding : Option (List ℚ)
  isActive : Bool
  deriving Repr, DecidableEq

structure TweetRow where
  id : String
  text : String
  tweetUrl : String
  authorName : Option String
  authorUrl : Option String
  createdAtUtc : String
  embedding : Option (List ℚ)
  isProcessed : Bool
  deriving Repr, DecidableEq

structure CorrelationRow where
  rowId : ℕ
  tweetId : String
  marketId : String
  relevanceScore : ℚ
  relevanceScoreReasoning : String
  urgencyScore : ℚ
  urgencyScoreReasoning : String
  sentToDiscord : Bool
  sentAtRecorded : Bool
  deriving Repr, DecidableEq

structure DB where
  markets : List MarketRow
  tweets : List TweetRow
  correlations : List CorrelationRow
  nextCorrelationRowId : ℕ
  deriving Repr, DecidableEq

/-! ### Database operations (`helpers/database.py`) -/

/-- Does a `sent_correlations` row for the composite key (tweet, market) exist?
This is the conflict test of the `UNIQUE(tweet_id, market_id)` constraint. -/
def containsPair (db : DB) (tweetId marketId : String) : Bool :=
  db.correlations.any fun r => r.tweetId == tweetId && r.marketId == marketId

/-- `store_correlation` (lines 273-282): `INSERT OR IGNORE` into
`sent_correlations`; a conflict on `UNIQUE(tweet_id, market_id)` skips the
insert and changes nothing.  New rows get `sent_to_discord = 0` and a null
`sent_at_utc` (schema defaults). -/
def store_correlation (db : DB) (tweetId marketId : String) (relevanceScore : ℚ)
    (relevanceScoreReasoning : String) (urgencyScore : ℚ)
    (urgencyScoreReasoning : String) : DB :=
  if containsPair db tweetId marketId then db
  else
    { db with
      correlations := db.correlations ++
        [{ rowId := db.nextCorrelationRowId, tweetId := tweetId, marketId := marketId,
           relevanceScore := relevanceScore,
           relevanceScoreReasoning := relevanceScoreReasoning,
           urgencyScore := urgencyScore,
           urgencyScoreReasoning := urgencyScoreReasoning,
           sentToDiscord := false, sentAtRecorded := false }],
      nextCorrelationRowId := db.nextCorrelationRowId + 1 }

/-- `mark_tweet_as_processed` (lines 264-270):
`UPDATE tweets SET is_processed = 1 WHERE id = ?`. -/
def mark_tweet_as_processed (db : DB) (tweetId : String) : DB :=
  { db with
    tweets := db.tweets.map fun t =>
      if t.id == tweetId then { t with isProcessed := true } else t }

/-- `get_unprocessed_tweets` (lines 240-248):
`SELECT * FROM tweets WHERE is_processed = 0`. -/
def get_unprocessed_tweets (db : DB) : List TweetRow :=
  db.tweets.filter fun t => !t.isProcessed

/-- `get_active_market_data` (lines 251-262): active markets with a non-null
embedding. -/
def get_active_market_data (db : DB) : List MarketRow :=
  db.markets.filter fun m => m.isActive && m.embedding.isSome

/-- `update_market_prices` (lines 322-329):
`UPDATE markets SET yes_price = ?, no_price = ? WHERE id = ?`. -/
def update_market_prices (db : DB) (marketId : String) (yesPrice noPrice : ℚ) : DB :=
  { db with
    markets := db.markets.map fun m =>
      if m.id == marketId then { m with yesPrice := yesPrice, noPrice := noPrice } else m }

/-- `mark_correlation_as_sent` (lines 331-341): sets `sent_to_discord = 1` and
records `sent_at_utc = CURRENT_TIMESTAMP` for the row with the given id. -/
def mark_correlation_as_sent (db : DB) (correlationId : ℕ) : DB :=
  { db with
    correlations := db.correlations.map fun r =>
      if r.rowId == correlationId then
        { r with sentToDiscord := true, sentAtRecorded := true }
      else r }

/-- The raw tweet payload consumed by `insert_tweets`.  `createdAtUtc` stands
for the ISO timestamp obtained from `strptime` (or the wall-clock fallback when
parsing fails); its value is immaterial to every claim. -/
structure TweetPayload where
  id : String
  text : String
  url : String
  authorName : Option String
  authorUrl : Option String
  createdAtUtc : String
  deriving Repr, DecidableEq

/-- `insert_tweets` (lines 199-235): `INSERT OR IGNORE` of each record in
order.  The column list names no `embedding` column, so every inserted row has
a NULL embedding, and `is_processed` takes its schema default `0`. -/
def insert_tweets (db : DB) (payloads : List TweetPayload) : DB :=
  payloads.foldl
    (fun d p =>
      if d.tweets.any fun t => t.id == p.id then d
      else
        { d with
          tweets := d.tweets ++
            [{ id := p.id, text := p.text, tweetUrl := p.url,
               authorName := p.authorName, authorUrl := p.authorUrl,
               createdAtUtc := p.createdAtUtc, embedding := none,
               isProcessed := false }] })
    db

/-- Number of `sent_correlations` rows for one composite key. -/
def pairCount (db : DB) (tweetId marketId : String) : ℕ :=
  (db.correlations.filter fun r => r.tweetId == tweetId && r.marketId == marketId).length

lemma containsPair_store_self (db : DB) (tweetId marketId : String) (r : ℚ) (rr : String)
    (u : ℚ) (ur : String) :
    containsPair (store_correlation db tweetId marketId r rr u ur) tweetId marketId = true := by
  unfold store_correlation
  by_cases h : containsPair db tweetId marketId
  · rw [if_pos h]; exact h
  · rw [if_neg h]
    simp [containsPair, List.any_append]

lemma pairCount_eq_zero_of_not_contains (db : DB) (tweetId marketId : String)
    (h : containsPair db tweetId marketId = false) : pairCount db tweetId marketId = 0 := by
  unfold containsPair at h
  unfold pairCount
  rw [List.length_eq_zero, List.filter_eq_nil_iff]
  intro a ha
  have := List.any_eq_false.mp h a ha
  simpa using this

/-- Claim C3: storing a correlation is idempotent on the composite key
(tweet id, market id): a second `store_correlation` with the same key — whatever
the new scores and rationales — leaves the database exactly unchanged (no second
row, no overwrite), and a single store never pushes the row count of any pair
above `max` of its previous count and one (so "at most one row per pair" is
preserved). -/
theorem store_correlation_idempotent (db : DB) (tweetId marketId : String)
    (r1 : ℚ) (rr1 : String) (u1 : ℚ) (ur1 : String)
    (r2 : ℚ) (rr2 : String) (u2 : ℚ) (ur2 : String) :
    store_correlation (store_correlation db tweetId marketId r1 rr1 u1 ur1)
        tweetId marketId r2 rr2 u2 ur2 =
      store_correlation db tweetId marketId r1 rr1 u1 ur1 ∧
    ∀ t m, pairCount (store_correlation db tweetId marketId r1 rr1 u1 ur1) t m ≤
      max (pairCount db t m) 1 := by
  constructor
  · conv_lhs => rw [store_correlation]
    rw [if_pos (containsPair_store_self db tweetId marketId r1 rr1 u1 ur1)]
  · intro t m
    unfold store_correlation
    by_cases h : containsPair db tweetId marketId
    · rw [if_pos h]
      exact le_max_left _ _
    · rw [if_neg h]
      by_cases hmatch : t = tweetId ∧ m = marketId
      · obtain ⟨rfl, rfl⟩ := hmatch
        have h0 : pairCount db t m = 0 :=
          pairCount_eq_zero_of_not_contains db t m (by simpa using h)
        have : pairCount
            { db with
              correlations := db.correlations ++
                [{ rowId := db.nextCorrelationRowId, tweetId := t, marketId := m,
                   relevanceScore := r1, relevanceScoreReasoning := rr1,
                   urgencyScore := u1, urgencyScoreReasoning := ur1,
                   sentToDiscord := false, sentAtRecorded := false }],
              nextCorrelationRowId := db.nextCorrelationRowId + 1 } t m =
            pairCount db t m + 1 := by
          unfold pairCount
          simp [List.filter_append]
        rw [this, h0]
        simp
      · have : pairCount
            { db with
              correlations := db.correlations ++
                [{ rowId := db.nextCorrelationRowId, tweetId := tweetId, marketId := marketId,
                   relevanceScore := r1, relevanceScoreReasoning := rr1,
                   urgencyScore := u1, urgencyScoreReasoning := ur1,
                   sentToDiscord := false, sentAtRecorded := false }],
              nextCorrelationRowId := db.nextCorrelationRowId + 1 } t m =
            pairCount db t m := by
          unfold pairCount
          rw [List.filter_append]
          have hrow : ¬(tweetId = t ∧ marketId = m) := by
            intro hc
            exact hmatch ⟨hc.1.symm, hc.2.symm⟩
          simp [hrow]
        rw [this]
        exact le_max_left _ _

/-! ### Correlation engine (`helpers/correlation_engine.py`, `run_correlation_engine`)

External collaborators are oracle parameters:
`embed` is `generate_embeddings` restricted to one text (an empty list models
the empty vector returned on failure); `adjudicate` is the generative
adjudicator chain invocation for one tweet against the active-market snapshot
(`Except.error` models a raised exception, which the code catches).  The
stage-1 candidate narrowing (top 50 active markets ranked by cosine
similarity) only shapes the prompt passed to the adjudicator and is absorbed
into the `adjudicate` oracle. -/

structure ScoredCorrelation where
  marketId : String
  marketQuestion : String
  relevanceScore : ℚ
  relevanceScoreReasoning : String
  urgencyScore : ℚ
  urgencyScoreReasoning : String
  deriving Repr, DecidableEq

/-- The storage loop of lines 161-174: for every validated result, store the
correlation exactly when its relevance score is at least the storage floor
`0.6` (`if correlation.relevance_score >= 0.6`). -/
def storeValidated (tweetId : String) (db : DB) (correlations : List ScoredCorrelation) : DB :=
  correlations.foldl
    (fun d c =>
      if c.relevanceScore ≥ 6/10 then
        store_correlation d tweetId c.marketId c.relevanceScore
          c.relevanceScoreReasoning c.urgencyScore c.urgencyScoreReasoning
      else d)
    db

/-- The `try ... except` block of lines 149-176: invoke the adjudicator; a
raised exception is caught, logged and treated as "no correlations found",
otherwise the validated results feed the storage loop. -/
def adjudicateStep
    (adjudicate : TweetRow → List MarketRow → Except String (List ScoredCorrelation))
    (activeMarkets : List MarketRow) (db : DB) (tweet : TweetRow) : DB :=
  match adjudicate tweet activeMarkets with
  | .error _ => db
  | .ok correlations => storeValidated tweet.id db correlations

/-- One iteration of the engine loop (lines 113-179) for one unprocessed tweet:
generate the embedding (empty → mark processed and continue), otherwise run the
adjudication-and-storage block, and finally mark the tweet processed regardless
of outcome. -/
def processTweet (embed : String → List ℚ)
    (adjudicate : TweetRow → List MarketRow → Except String (List ScoredCorrelation))
    (activeMarkets : List MarketRow) (db : DB) (tweet : TweetRow) : DB :=
  if embed tweet.text = [] then
    mark_tweet_as_processed db tweet.id
  else
    mark_tweet_as_processed (adjudicateStep adjudicate activeMarkets db tweet) tweet.id

/-- `run_correlation_engine` (lines 97-181): snapshot the unprocessed tweets
and the active markets, then run one `processTweet` iteration per tweet. -/
def run_correlation_engine (embed : String → List ℚ)
    (adjudicate : TweetRow → List MarketRow → Except String (List ScoredCorrelation))
    (db : DB) : DB :=
  let unprocessedTweets := get_unprocessed_tweets db
  let activeMarkets := get_active_market_data db
  unprocessedTweets.foldl (processTweet embed adjudicate activeMarkets) db

lemma store_correlation_tweets (db : DB) (a b : String) (r : ℚ) (rr : String) (u : ℚ)
    (ur : String) : (store_correlation db a b r rr u ur).tweets = db.tweets := by
  unfold store_correlation
  split <;> rfl

lemma storeValidated_cons (tid : String) (db : DB) (c : ScoredCorrelation)
    (cs : List ScoredCorrelation) :
    storeValidated tid db (c :: cs) =
      storeValidated tid
        (if c.relevanceScore ≥ 6/10 then
          store_correlation db tid c.marketId c.relevanceScore
            c.relevanceScoreReasoning c.urgencyScore c.urgencyScoreReasoning
        else db)
        cs := rfl

lemma storeValidated_tweets (tid : String) (cs : List ScoredCorrelation) (db : DB) :
    (storeValidated tid db cs).tweets = db.tweets := by
  induction cs generalizing db with
  | nil => rfl
  | cons c cs ih =>
    rw [storeValidated_cons, ih]
    split <;> simp [store_correlation_tweets]

lemma adjudicateStep_tweets
    (adjudicate : TweetRow → List MarketRow → Except String (List ScoredCorrelation))
    (activeMarkets : List MarketRow) (db : DB) (tweet : TweetRow) :
    (adjudicateStep adjudicate activeMarkets db tweet).tweets = db.tweets := by
  unfold adjudicateStep
  cases adjudicate tweet activeMarkets with
  | error e => rfl
  | ok cs => exact storeValidated_tweets _ _ _

lemma processTweet_tweets (embed : String → List ℚ)
    (adjudicate : TweetRow → List MarketRow → Except String (List ScoredCorrelation))
    (activeMarkets : List MarketRow) (db : DB) (tweet : TweetRow) :
    (processTweet embed adjudicate activeMarkets db tweet).tweets =
      db.tweets.map fun u =>
        if u.id == tweet.id then { u with isProcessed := true } else u := by
  unfold processTweet
  split
  · rfl
  · show (mark_tweet_as_processed (adjudicateStep adjudicate activeMarkets db tweet)
      tweet.id).tweets = _
    unfold mark_tweet_as_processed
    rw [adjudicateStep_tweets]

lemma engineFold_tweets (embed : String → List ℚ)
    (adjudicate : TweetRow → List MarketRow → Except String (List ScoredCorrelation))
    (activeMarkets : List MarketRow) (l : List TweetRow) (db : DB) :
    (l.foldl (processTweet embed adjudicate activeMarkets) db).tweets =
      db.tweets.map fun u =>
        if l.any (fun t => u.id == t.id) then { u with isProcessed := true } else u := by
  induction l generalizing db with
  | nil => simp
  | cons t ts ih =>
    rw [List.foldl_cons, ih, processTweet_tweets, List.map_map]
    apply List.map_congr_left
    intro u _
    by_cases h1 : u.id == t.id
    · by_cases h2 : ts.any fun s => u.id == s.id <;>
        simp [Function.comp, h1, h2]
    · by_cases h2 : ts.any fun s => u.id == s.id <;>
        simp [Function.comp, h1, h2]

/-- Claim C2: a run of the correlation engine sets the processed flag of every
tweet row (those already processed stay processed and are otherwise untouched,
those unprocessed at the start of the run transition to processed), for every
behaviour of the embedding and adjudicator oracles — empty embedding, empty
result list, stored correlations, or a raised adjudicator exception.
Moreover one loop iteration flips exactly the processed flag of its own tweet
id and touches no other row, and never unsets a flag. -/
theorem engine_marks_every_item_processed (embed : String → List ℚ)
    (adjudicate : TweetRow → List MarketRow → Except String (List ScoredCorrelation))
    (db : DB) :
    (run_correlation_engine embed adjudicate db).tweets =
      db.tweets.map (fun t => { t with isProcessed := true }) ∧
    ∀ activeMarkets tweet,
      (processTweet embed adjudicate activeMarkets db tweet).tweets =
        db.tweets.map fun u =>
          if u.id == tweet.id then { u with isProcessed := true } else u := by
  refine ⟨?_, fun activeMarkets tweet => processTweet_tweets _ _ _ _ _⟩
  unfold run_correlation_engine
  rw [engineFold_tweets]
  apply List.map_congr_left
  intro u hu
  by_cases hp : u.isProcessed
  · by_cases hmem : (get_unprocessed_tweets db).any fun t => u.id == t.id
    · simp [hmem]
    · simp only [hmem, if_false]
      cases u
      simp_all
  · have hmem : (get_unprocessed_tweets db).any (fun t => u.id == t.id) = true := by
      rw [List.any_eq_true]
      refine ⟨u, ?_, by simp⟩
      unfold get_unprocessed_tweets
      rw [List.mem_filter]
      exact ⟨hu, by simp [hp]⟩
    simp [hmem]

lemma containsPair_store (db : DB) (a b : String) (r : ℚ) (rr : String) (u : ℚ) (ur : String)
    (t m : String) :
    containsPair (store_correlation db a b r rr u ur) t m =
      (containsPair db t m || (a == t && b == m)) := by
  unfold store_correlation
  by_cases h : containsPair db a b
  · rw [if_pos h]
    by_cases hm : a = t ∧ b = m
    · obtain ⟨rfl, rfl⟩ := hm
      simp [h]
    · have : (a == t && b == m) = false := by
        rcases not_and_or.mp hm with h1 | h1 <;> simp [h1]
      simp [this]
  · rw [if_neg h]
    unfold containsPair
    simp [List.any_append, containsPair]

lemma containsPair_storeValidated (tid : String) (cs : List ScoredCorrelation) (db : DB)
    (t m : String) :
    containsPair (storeValidated tid db cs) t m = true ↔
      containsPair db t m = true ∨
        (t = tid ∧ ∃ c ∈ cs, c.marketId = m ∧ (6/10 : ℚ) ≤ c.relevanceScore) := by
  induction cs generalizing db with
  | nil => simp [storeValidated]
  | cons c cs ih =>
    rw [storeValidated_cons, ih]
    by_cases hrel : c.relevanceScore ≥ 6/10
    · rw [if_pos hrel, containsPair_store]
      constructor
      · intro h
        rcases h with h | h
        · rcases Bool.or_eq_true _ _ |>.mp h with h1 | h1
          · exact Or.inl h1
          · have h2 := Bool.and_eq_true _ _ |>.mp h1
            refine Or.inr ⟨(beq_iff_eq.mp h2.1).symm, c, List.mem_cons_self c cs, ?_, hrel⟩
            exact beq_iff_eq.mp h2.2
        · obtain ⟨h1, d, hd, hdm, hds⟩ := h
          exact Or.inr ⟨h1, d, List.mem_cons_of_mem c hd, hdm, hds⟩
      · intro h
        rcases h with h | ⟨rfl, d, hd, hdm, hds⟩
        · exact Or.inl (by simp [h])
        · rcases List.mem_cons.mp hd with rfl | hd2
          · exact Or.inl (by simp [hdm])
          · exact Or.inr ⟨rfl, d, hd2, hdm, hds⟩
    · rw [if_neg hrel]
      constructor
      · intro h
        rcases h with h | h
        · exact Or.inl h
        · obtain ⟨h1, d, hd, hdm, hds⟩ := h
          exact Or.inr ⟨h1, d, List.mem_cons_of_mem c hd, hdm, hds⟩
      · intro h
        rcases h with h | ⟨rfl, d, hd, hdm, hds⟩
        · exact Or.inl h
        · rcases List.mem_cons.mp hd with rfl | hd2
          · exact absurd hds hrel
          · exact Or.inr ⟨rfl, d, hd2, hdm, hds⟩

lemma containsPair_mark (db : DB) (i t m : String) :
    containsPair (mark_tweet_as_processed db i) t m = containsPair db t m := rfl

/-- Claim C4, amended: when the embedding is non-empty and the adjudicator
returns a validated result list, a correlation row for (tweet, market) exists
after the iteration exactly when it existed before or some validated result for
that market has relevance score at least `0.6` — the boundary case
`relevance = 0.6` is stored, so the implementation satisfies the spec's
"relevance ≥ storage floor" sentence and falsifies the strict
"exceeds" one. -/
theorem adjudicator_storage_floor (embed : String → List ℚ)
    (activeMarkets : List MarketRow) (db : DB) (tweet : TweetRow)
    (results : List ScoredCorrelation) (tid mid : String)
    (hembed : embed tweet.text ≠ []) :
    containsPair
        (processTweet embed (fun _ _ => .ok results) activeMarkets db tweet) tid mid = true ↔
      containsPair db tid mid = true ∨
        (tid = tweet.id ∧ ∃ c ∈ results, c.marketId = mid ∧ (6/10 : ℚ) ≤ c.relevanceScore) := by
  unfold processTweet
  rw [if_neg hembed]
  show containsPair (mark_tweet_as_processed (storeValidated _ _ _) _) _ _ = true ↔ _
  rw [containsPair_mark, containsPair_storeValidated]

def engineDemoTweet : TweetRow :=
  { id := "t1", text := "tweet text", tweetUrl := "u", authorName := none,
    authorUrl := none, createdAtUtc := "2025-01-01T00:00:00", embedding := none,
    isProcessed := false }

def engineDemoResult : ScoredCorrelation :=
  { marketId := "m1", marketQuestion := "q?", relevanceScore := 6/10,
    relevanceScoreReasoning := "reason", urgencyScore := 1/2,
    urgencyScoreReasoning := "urgency reason" }

def engineDemoDB : DB := { markets := [], tweets := [engineDemoTweet], correlations := [], nextCorrelationRowId := 1 }

theorem adjudicator_storage_floor_witness :
    ((fun _ : String => [(1 : ℚ)]) engineDemoTweet.text ≠ []) ∧
    (containsPair
        (processTweet (fun _ => [(1 : ℚ)]) (fun _ _ => .ok [engineDemoResult]) [] engineDemoDB
          engineDemoTweet) "t1" "m1" = true ↔
      containsPair engineDemoDB "t1" "m1" = true ∨
        ("t1" = engineDemoTweet.id ∧ ∃ c ∈ [engineDemoResult], c.marketId = "m1" ∧
          (6/10 : ℚ) ≤ c.relevanceScore)) :=
  ⟨by simp,
   adjudicator_storage_floor (fun _ => [(1 : ℚ)]) [] engineDemoDB engineDemoTweet
     [engineDemoResult] "t1" "m1" (by simp)⟩

/-- Claim C4 counterexample: with a validated result whose relevance is exactly
`0.6` — not exceeding the floor — the iteration still creates the correlation
row, refuting the strict reading "creates only when relevance exceeds 0.6". -/
theorem storage_floor_boundary_counterexample :
    ((processTweet (fun _ => [(1 : ℚ)]) (fun _ _ => .ok [engineDemoResult]) [] engineDemoDB
        engineDemoTweet).correlations.map fun r => (r.tweetId, r.marketId, r.relevanceScore)) =
      [("t1", "m1", (6/10 : ℚ))] ∧
    ¬((6/10 : ℚ) > 6/10) := by
  constructor
  · simp [processTweet, adjudicateStep, storeValidated, store_correlation, containsPair,
      mark_tweet_as_processed, engineDemoDB, engineDemoResult, engineDemoTweet]
  · norm_num

/-! ### A stable sort

Python's `list.sort(key=...)` is a stable sort; with `reverse=True` it is the
stable sort by the reversed comparator.  We model every `sort` call with a
stable insertion sort parametrised by the Boolean relation
`le x y` = "x may be placed before y". -/

def insertOrdered {α : Type} (le : α → α → Bool) (x : α) : List α → List α
  | [] => [x]
  | y :: l => if le x y then x :: y :: l else y :: insertOrdered le x l

def sortOrdered {α : Type} (le : α → α → Bool) (l : List α) : List α :=
  l.foldr (insertOrdered le) []

lemma insertOrdered_perm {α : Type} (le : α → α → Bool) (x : α) (l : List α) :
    (insertOrdered le x l).Perm (x :: l) := by
  induction l with
  | nil => rfl
  | cons y l ih =>
    unfold insertOrdered
    split
    · rfl
    · exact (ih.cons y).trans (List.Perm.swap x y l)

lemma sortOrdered_perm {α : Type} (le : α → α → Bool) (l : List α) :
    (sortOrdered le l).Perm l := by
  induction l with
  | nil => rfl
  | cons x l ih =>
    exact (insertOrdered_perm le x (sortOrdered le l)).trans (ih.cons x)

lemma mem_sortOrdered {α : Type} (le : α → α → Bool) (l : List α) (a : α) :
    a ∈ sortOrdered le l ↔ a ∈ l :=
  (sortOrdered_perm le l).mem_iff

lemma insertOrdered_pairwise {α : Type} (le : α → α → Bool)
    (htot : ∀ a b, le a b = true ∨ le b a = true)
    (htrans : ∀ a b c, le a b = true → le b c = true → le a c = true)
    (x : α) (l : List α)
    (hl : l.Pairwise fun a b => le a b = true) :
    (insertOrdered le x l).Pairwise fun a b => le a b = true := by
  induction l with
  | nil => simp [insertOrdered]
  | cons y l ih =>
    unfold insertOrdered
    rcases List.pairwise_cons.mp hl with ⟨hy, hl'⟩
    split
    · rename_i hxy
      refine List.pairwise_cons.mpr ⟨?_, hl⟩
      intro b hb
      rcases List.mem_cons.mp hb with rfl | hb2
      · exact hxy
      · exact htrans x y b hxy (hy b hb2)
    · rename_i hxy
      have hyx : le y x = true := by
        rcases htot x y with h | h
        · exact absurd h hxy
        · exact h
      refine List.pairwise_cons.mpr ⟨?_, ih hl'⟩
      intro b hb
      rcases List.mem_cons.mp ((insertOrdered_perm le x l).mem_iff.mp hb) with rfl | h
      · exact hyx
      · exact hy b h

lemma sortOrdered_pairwise {α : Type} (le : α → α → Bool)
    (htot : ∀ a b, le a b = true ∨ le b a = true)
    (htrans : ∀ a b c, le a b = true → le b c = true → le a c = true) (l : List α) :
    (sortOrdered le l).Pairwise fun a b => le a b = true := by
  induction l with
  | nil => simp [sortOrdered]
  | cons x l ih => exact insertOrdered_pairwise le htot htrans x (sortOrdered le l) ih

/-! ### The unsent-correlations read model (`helpers/database.py`,
`get_unsent_correlations`, lines 285-319)

One record per row of the three-way join; field names follow the `SELECT`
aliases. -/

structure JoinedRow where
  correlationId : ℕ
  relevanceScore : ℚ
  relevanceScoreReasoning : String
  urgencyScore : ℚ
  urgencyScoreReasoning : String
  tweetId : String
  tweetText : String
  tweetUrl : String
  tweetEmbedding : Option (List ℚ)
  authorName : Option String
  marketQuestion : String
  marketId : String
  marketSlug : String
  marketUrl : String
  parentEventId : Option String
  yesPrice : ℚ
  noPrice : ℚ
  marketImage : Option String
  createdAtUtc : String
  deriving Repr, DecidableEq

/-- Inner-join of one `sent_correlations` row with its tweet and market rows;
`none` when either side of the join has no match. -/
def joinRow (db : DB) (c : CorrelationRow) : Option JoinedRow :=
  match db.tweets.find? (fun t => t.id == c.tweetId),
      db.markets.find? (fun m => m.id == c.marketId) with
  | some t, some m =>
      some
        { correlationId := c.rowId, relevanceScore := c.relevanceScore,
          relevanceScoreReasoning := c.relevanceScoreReasoning,
          urgencyScore := c.urgencyScore,
          urgencyScoreReasoning := c.urgencyScoreReasoning,
          tweetId := t.id, tweetText := t.text, tweetUrl := t.tweetUrl,
          tweetEmbedding := t.embedding, authorName := t.authorName,
          marketQuestion := m.question, marketId := m.id, marketSlug := m.slug,
          marketUrl := m.marketUrl, parentEventId := m.parentEventId,
          yesPrice := m.yesPrice, noPrice := m.noPrice, marketImage := m.imageUrl,
          createdAtUtc := t.createdAtUtc }
  | _, _ => none

/-- `ORDER BY sc.relevance_score DESC, t.created_at_utc DESC`. -/
def unsentOrder (a b : JoinedRow) : Bool :=
  decide (b.relevanceScore < a.relevanceScore ∨
    (b.relevanceScore = a.relevanceScore ∧ b.createdAtUtc ≤ a.createdAtUtc))

/-- `get_unsent_correlations`: all un-sent correlation rows joined with their
tweet and market, ordered by relevance (descending) then tweet recency. -/
def get_unsent_correlations (db : DB) : List JoinedRow :=
  sortOrdered unsentOrder
    ((db.correlations.filter fun c => !c.sentToDiscord).filterMap (joinRow db))

/-! ### Alpha Prioritizer (`helpers/discord_bot.py`, `send_new_correlations`
steps 2-5, lines 110-144) -/

/-- Step 2 (lines 111-121): refresh odds from the live market-data feed.
`freshPrices` abstracts `get_markets_by_ids_async` composed with the
`json.loads` of each market's `outcomePrices` field; when at least two prices
come back, both the in-memory row and the `markets` table are updated.  The
loop's effect on one row never depends on the other rows, so it is modelled as
a row map plus a database fold. -/
def refreshRow (freshPrices : String → Option (List ℚ)) (r : JoinedRow) : JoinedRow :=
  match freshPrices r.marketId with
  | none => r
  | some prices =>
      if 2 ≤ prices.length then
        { r with yesPrice := prices.getD 0 0, noPrice := prices.getD 1 0 }
      else r

def refreshDb (freshPrices : String → Option (List ℚ)) (db : DB)
    (rows : List JoinedRow) : DB :=
  rows.foldl
    (fun d r =>
      match freshPrices r.marketId with
      | none => d
      | some prices =>
          if 2 ≤ prices.length then
            update_market_prices d r.marketId (prices.getD 0 0) (prices.getD 1 0)
          else d)
    db

/-- Step 3 (lines 123-125): sort the rows by tweet id and group consecutive
rows sharing a tweet id (`itertools.groupby`) into message packages. -/
def groupStep (r : JoinedRow) (acc : List (List JoinedRow)) : List (List JoinedRow) :=
  match acc with
  | [] => [[r]]
  | [] :: rest => [r] :: rest
  | (s :: g) :: rest =>
      if r.tweetId == s.tweetId then (r :: s :: g) :: rest
      else [r] :: (s :: g) :: rest

def groupRuns (rows : List JoinedRow) : List (List JoinedRow) :=
  rows.foldr groupStep []

def makeMessagePackages (rows : List JoinedRow) : List (List JoinedRow) :=
  groupRuns (sortOrdered (fun a b => decide (a.tweetId ≤ b.tweetId)) rows)

/-- The "Market Liveness" impact formula of lines 136 and 205:
`4 * yes_price * no_price`. -/
def impactFormula (yesPrice noPrice : ℚ) : ℚ := 4 * yesPrice * noPrice

def relevanceDesc (a b : JoinedRow) : Bool :=
  decide (b.relevanceScore ≤ a.relevanceScore)

structure ScoredPackage where
  score : ℚ
  package : List JoinedRow
  deriving Repr, DecidableEq

/-- Step 4 (lines 128-140) for one package: sort its rows by relevance
(descending, stable — Python `list.sort` mutates the package in place, so the
stored package is the sorted one), read relevance and urgency off the top
correlation, and combine with the impact of the top correlation's market and
the capped diversity bonus.  The Python float literals `0.5, 0.3, 0.2, 0.1,
5.0` are modelled by the equal exact rationals.  A package is never empty
(groups come from `groupby`), so the `[]` branch is unreachable. -/
def scorePackage (package : List JoinedRow) : ScoredPackage :=
  match sortOrdered relevanceDesc package with
  | [] => { score := 0, package := [] }
  | top :: rest =>
      { score :=
          top.relevanceScore * (1/2) + top.urgencyScore * (3/10) +
            impactFormula top.yesPrice top.noPrice * (1/5) +
            min ((package.length : ℚ) / 5) 1 * (1/10),
        package := top :: rest }

def packageAlphaScore (package : List JoinedRow) : ℚ := (scorePackage package).score

def scoreDesc (a b : ScoredPackage) : Bool := decide (b.score ≤ a.score)

/-- Steps 4-5 (lines 127-144): score every package, then sort the scored
packages by descending alpha score. -/
def prioritizePackages (packages : List (List JoinedRow)) : List ScoredPackage :=
  sortOrdered scoreDesc (packages.map scorePackage)

lemma relevanceDesc_total (a b : JoinedRow) :
    relevanceDesc a b = true ∨ relevanceDesc b a = true := by
  unfold relevanceDesc
  rcases le_total b.relevanceScore a.relevanceScore with h | h <;> simp [h]

lemma relevanceDesc_trans (a b c : JoinedRow) (h1 : relevanceDesc a b = true)
    (h2 : relevanceDesc b c = true) : relevanceDesc a c = true := by
  unfold relevanceDesc at h1 h2 ⊢
  simp only [decide_eq_true_eq] at h1 h2 ⊢
  exact le_trans h2 h1

lemma scoreDesc_total (a b : ScoredPackage) :
    scoreDesc a b = true ∨ scoreDesc b a = true := by
  unfold scoreDesc
  rcases le_total b.score a.score with h | h <;> simp [h]

lemma scoreDesc_trans (a b c : ScoredPackage) (h1 : scoreDesc a b = true)
    (h2 : scoreDesc b c = true) : scoreDesc a c = true := by
  unfold scoreDesc at h1 h2 ⊢
  simp only [decide_eq_true_eq] at h1 h2 ⊢
  exact le_trans h2 h1

lemma sortOrdered_relevanceDesc_head_max (p : List JoinedRow) (top : JoinedRow)
    (rest : List JoinedRow) (hsort : sortOrdered relevanceDesc p = top :: rest) :
    top ∈ p ∧ ∀ c ∈ p, c.relevanceScore ≤ top.relevanceScore := by
  have hperm := sortOrdered_perm relevanceDesc p
  rw [hsort] at hperm
  constructor
  · exact hperm.mem_iff.mp (List.mem_cons_self top rest)
  · intro c hc
    have hc2 : c ∈ top :: rest := hperm.mem_iff.mpr hc
    rcases List.mem_cons.mp hc2 with rfl | hc3
    · exact le_refl _
    · have hpw := sortOrdered_pairwise relevanceDesc relevanceDesc_total relevanceDesc_trans p
      rw [hsort] at hpw
      have := (List.pairwise_cons.mp hpw).1 c hc3
      unfold relevanceDesc at this
      exact decide_eq_true_eq.mp this

/-- The test-scenario row shape: relevance `0.8`, urgency `0.5`, given prices. -/
def scenarioRow (cid : ℕ) (tid mid : String) (yes no : ℚ) : JoinedRow :=
  { correlationId := cid, relevanceScore := 4/5, relevanceScoreReasoning := "r",
    urgencyScore := 1/2, urgencyScoreReasoning := "u", tweetId := tid,
    tweetText := "text", tweetUrl := "tu", tweetEmbedding := none,
    authorName := none, marketQuestion := "q", marketId := mid, marketSlug := "s",
    marketUrl := "mu", parentEventId := none, yesPrice := yes, noPrice := no,
    marketImage := none, createdAtUtc := "2025-01-01" }

/-- Claim C1: the Alpha Prioritizer scores each non-empty package as
`0.5·relevance + 0.3·urgency + 0.2·impact + diversity_bonus` with relevance and
urgency taken from the package's top correlation by relevance score, impact
`4·yes·no` of that top correlation, and `diversity_bonus =
min(size/5, 1)·0.1`; the scored packages come back sorted by descending alpha
score (a permutation of the input's scored packages); the impact formula is `1`
at `yes = no = 0.5` and `0` at `yes = 1, no = 0`; and in the two-package
scenario (both relevance `0.8`, urgency `0.5`, sizes `1`) the package whose
market quotes `yes = no = 0.5` ranks strictly above the one quoting
`yes = 0.9, no = 0.1`. -/
theorem alpha_prioritizer_contract (packages : List (List JoinedRow)) :
    (∀ p ∈ packages, p ≠ [] →
      ∃ top ∈ p, (∀ c ∈ p, c.relevanceScore ≤ top.relevanceScore) ∧
        packageAlphaScore p =
          top.relevanceScore * (1/2) + top.urgencyScore * (3/10) +
            4 * top.yesPrice * top.noPrice * (1/5) +
            min ((p.length : ℚ) / 5) 1 * (1/10)) ∧
    (prioritizePackages packages).Pairwise (fun a b => b.score ≤ a.score) ∧
    (prioritizePackages packages).Perm (packages.map scorePackage) ∧
    impactFormula (1/2) (1/2) = 1 ∧ impactFormula 1 0 = 0 ∧
    (prioritizePackages
        [[scenarioRow 1 "t1" "E1" (1/2) (1/2)], [scenarioRow 2 "t2" "E2" (9/10) (1/10)]]).map
      (fun sp => sp.package.map (fun r => r.marketId)) = [["E1"], ["E2"]] := by
  refine ⟨?_, ?_, ?_, ?_, ?_, ?_⟩
  · intro p _ hne
    rcases hs : sortOrdered relevanceDesc p with _ | ⟨top, rest⟩
    · have hp : p = [] := ((hs ▸ sortOrdered_perm relevanceDesc p : ([] : List JoinedRow).Perm p).symm).eq_nil
      exact absurd hp hne
    · obtain ⟨htop, hmax⟩ := sortOrdered_relevanceDesc_head_max p top rest hs
      refine ⟨top, htop, hmax, ?_⟩
      unfold packageAlphaScore scorePackage
      rw [hs]
      unfold impactFormula
      ring
  · have := sortOrdered_pairwise scoreDesc scoreDesc_total scoreDesc_trans
      (packages.map scorePackage)
    unfold prioritizePackages
    refine List.Pairwise.imp ?_ this
    intro a b h
    unfold scoreDesc at h
    exact decide_eq_true_eq.mp h
  · exact sortOrdered_perm scoreDesc (packages.map scorePackage)
  · unfold impactFormula; norm_num
  · unfold impactFormula; norm_num
  · norm_num [prioritizePackages, sortOrdered, insertOrdered, scorePackage, relevanceDesc,
      scoreDesc, impactFormula, scenarioRow, min_def]

theorem alpha_prioritizer_contract_witness :
    ∃ top ∈ [scenarioRow 1 "t1" "E1" (1/2) (1/2)],
      (∀ c ∈ [scenarioRow 1 "t1" "E1" (1/2) (1/2)],
        c.relevanceScore ≤ top.relevanceScore) ∧
      packageAlphaScore [scenarioRow 1 "t1" "E1" (1/2) (1/2)] =
        top.relevanceScore * (1/2) + top.urgencyScore * (3/10) +
          4 * top.yesPrice * top.noPrice * (1/5) +
          min (([scenarioRow 1 "t1" "E1" (1/2) (1/2)].length : ℚ) / 5) 1 * (1/10) :=
  (alpha_prioritizer_contract
      [[scenarioRow 1 "t1" "E1" (1/2) (1/2)], [scenarioRow 2 "t2" "E2" (9/10) (1/10)]]).1
    [scenarioRow 1 "t1" "E1" (1/2) (1/2)] (by simp) (by simp)

/-! ### Cross-Package Deduplicator (`helpers/discord_bot.py`, step 6,
lines 146-171)

Walk the priority-ordered scored packages; a package's news embedding is
`package[0].get('tweet_embedding')`; `None` means fail-open accept; otherwise
compare against every previously accepted embedding with
`calculate_cosine_similarity` and discard on any similarity strictly above
`SIMILARITY_THRESHOLD = 0.95`; accepted embeddings are appended to the
accumulator. -/

def packageTweetEmbedding (sp : ScoredPackage) : Option (List ℚ) :=
  match sp.package with
  | [] => none
  | r :: _ => r.tweetEmbedding

/-- The scorer applied to database vectors (rationals embedded in ℝ). -/
noncomputable def cosineSimQ (v1 v2 : List ℚ) : ℝ :=
  calculate_cosine_similarity (v1.map fun q => (q : ℝ)) (v2.map fun q => (q : ℝ))

open Classical in
noncomputable def dedupAux (incoming : List ScoredPackage) (accepted : List (List ℚ)) :
    List ScoredPackage × List (List ℚ) :=
  match incoming with
  | [] => ([], accepted)
  | sp :: rest =>
    match packageTweetEmbedding sp with
    | none => ((sp :: (dedupAux rest accepted).1), (dedupAux rest accepted).2)
    | some emb =>
        if ∃ e ∈ accepted, cosineSimQ emb e > 95/100 then dedupAux rest accepted
        else
          ((sp :: (dedupAux rest (accepted ++ [emb])).1),
            (dedupAux rest (accepted ++ [emb])).2)

noncomputable def dedupPackages (scored : List ScoredPackage) : List ScoredPackage :=
  (dedupAux scored []).1

lemma dedupAux_cons_none (sp : ScoredPackage) (rest : List ScoredPackage)
    (A : List (List ℚ)) (h : packageTweetEmbedding sp = none) :
    dedupAux (sp :: rest) A =
      ((sp :: (dedupAux rest A).1), (dedupAux rest A).2) := by
  simp only [dedupAux, h]

open Classical in
lemma dedupAux_cons_some (sp : ScoredPackage) (rest : List ScoredPackage)
    (A : List (List ℚ)) (emb : List ℚ) (h : packageTweetEmbedding sp = some emb) :
    dedupAux (sp :: rest) A =
      if ∃ e ∈ A, cosineSimQ emb e > 95/100 then dedupAux rest A
      else
        ((sp :: (dedupAux rest (A ++ [emb])).1), (dedupAux rest (A ++ [emb])).2) := by
  simp only [dedupAux, h]

lemma dedupAux_sublist (incoming : List ScoredPackage) (A : List (List ℚ)) :
    (dedupAux incoming A).1.Sublist incoming := by
  induction incoming generalizing A with
  | nil => simp [dedupAux]
  | cons sp rest ih =>
    rcases hemb : packageTweetEmbedding sp with _ | emb
    · rw [dedupAux_cons_none sp rest A hemb]
      exact (ih A).cons₂ sp
    · rw [dedupAux_cons_some sp rest A emb hemb]
      split
      · exact (ih A).cons sp
      · exact (ih (A ++ [emb])).cons₂ sp

lemma dedupAux_fail_open (incoming : List ScoredPackage) (A : List (List ℚ))
    (sp : ScoredPackage) (hmem : sp ∈ incoming)
    (hnone : packageTweetEmbedding sp = none) : sp ∈ (dedupAux incoming A).1 := by
  induction incoming generalizing A with
  | nil => cases hmem
  | cons hd rest ih =>
    rcases List.mem_cons.mp hmem with rfl | hmem2
    · rw [dedupAux_cons_none sp rest A hnone]
      exact List.mem_cons_self sp _
    · rcases hemb : packageTweetEmbedding hd with _ | emb
      · rw [dedupAux_cons_none hd rest A hemb]
        exact List.mem_cons_of_mem hd (ih A hmem2)
      · rw [dedupAux_cons_some hd rest A emb hemb]
        split
        · exact ih A hmem2
        · exact List.mem_cons_of_mem hd (ih (A ++ [emb]) hmem2)

lemma dedupAux_recorded (incoming : List ScoredPackage) (A : List (List ℚ)) :
    (dedupAux incoming A).2 =
      A ++ (dedupAux incoming A).1.filterMap packageTweetEmbedding := by
  induction incoming generalizing A with
  | nil => simp [dedupAux]
  | cons sp rest ih =>
    rcases hemb : packageTweetEmbedding sp with _ | emb
    · rw [dedupAux_cons_none sp rest A hemb]
      simp only [List.filterMap_cons, hemb]
      exact ih A
    · rw [dedupAux_cons_some sp rest A emb hemb]
      split
      · exact ih A
      · simp only [List.filterMap_cons, hemb]
        rw [ih (A ++ [emb])]
        simp

lemma dedupAux_append (l1 l2 : List ScoredPackage) (A : List (List ℚ)) :
    dedupAux (l1 ++ l2) A =
      ((dedupAux l1 A).1 ++ (dedupAux l2 (dedupAux l1 A).2).1,
        (dedupAux l2 (dedupAux l1 A).2).2) := by
  induction l1 generalizing A with
  | nil => simp [dedupAux]
  | cons sp rest ih =>
    rcases hemb : packageTweetEmbedding sp with _ | emb
    · rw [List.cons_append, dedupAux_cons_none sp (rest ++ l2) A hemb,
        dedupAux_cons_none sp rest A hemb, ih A]
      simp
    · rw [List.cons_append, dedupAux_cons_some sp (rest ++ l2) A emb hemb,
        dedupAux_cons_some sp rest A emb hemb]
      split
      · exact ih A
      · rw [ih (A ++ [emb])]
        simp

lemma normList_e1 : normList [(1 : ℝ), 0] = 1 := by
  have h : sumSq [(1 : ℝ), 0] = 1 := by simp [sumSq]
  rw [normList, h, Real.sqrt_one]

lemma normList_e2 : normList [(0 : ℝ), 1] = 1 := by
  have h : sumSq [(0 : ℝ), 1] = 1 := by simp [sumSq]
  rw [normList, h, Real.sqrt_one]

lemma cosineSimQ_same : cosineSimQ [(1 : ℚ), 0] [(1 : ℚ), 0] = 1 := by
  unfold cosineSimQ
  have hmap : (([(1 : ℚ), 0] : List ℚ).map fun q => (q : ℝ)) = [(1 : ℝ), 0] := by norm_num
  rw [hmap]
  unfold calculate_cosine_similarity
  rw [if_neg (by rw [normList_e1]; norm_num)]
  rw [normList_e1]
  have hdot : dotList [(1 : ℝ), 0] [(1 : ℝ), 0] = 1 := by simp [dotList]
  rw [hdot]
  norm_num

lemma cosineSimQ_orth : cosineSimQ [(0 : ℚ), 1] [(1 : ℚ), 0] = 0 := by
  unfold cosineSimQ
  have hmap1 : (([(0 : ℚ), 1] : List ℚ).map fun q => (q : ℝ)) = [(0 : ℝ), 1] := by norm_num
  have hmap2 : (([(1 : ℚ), 0] : List ℚ).map fun q => (q : ℝ)) = [(1 : ℝ), 0] := by norm_num
  rw [hmap1, hmap2]
  unfold calculate_cosine_similarity
  rw [if_neg (by rw [normList_e1, normList_e2]; norm_num)]
  have hdot : dotList [(0 : ℝ), 1] [(1 : ℝ), 0] = 0 := by simp [dotList]
  rw [hdot]
  norm_num

/-- A scenario package with the given embedding on its top row. -/
def embPackage (cid : ℕ) (sc : ℚ) (emb : Option (List ℚ)) : ScoredPackage :=
  { score := sc,
    package := [{ scenarioRow cid "t" "M" (1/2) (1/2) with tweetEmbedding := emb }] }

/-- Claim C5: the Cross-Package Deduplicator returns an order-preserving
subsequence of the priority-ordered input; a package whose news item has no
embedding on record is always accepted (fail-open); processing is sequential
left-to-right (the append law); a package carrying an embedding and occurring
once is kept exactly when no previously accepted embedding has cosine
similarity strictly above `0.95` to it; the accumulator records exactly the
embeddings of the accepted packages that had one; and in the three-package
scenario (P1 with embedding V1, P2 with an embedding at similarity `> 0.95` to
V1, P3 with an embedding at similarity `≤ 0.95` to V1) P2 is discarded while
P1 and P3 survive in order. -/
theorem cross_package_dedup_contract (incoming : List ScoredPackage)
    (A : List (List ℚ)) :
    (dedupAux incoming A).1.Sublist incoming ∧
    (∀ sp ∈ incoming, packageTweetEmbedding sp = none → sp ∈ (dedupAux incoming A).1) ∧
    (dedupAux incoming A).2 =
      A ++ (dedupAux incoming A).1.filterMap packageTweetEmbedding ∧
    (∀ l2, dedupAux (incoming ++ l2) A =
      ((dedupAux incoming A).1 ++ (dedupAux l2 (dedupAux incoming A).2).1,
        (dedupAux l2 (dedupAux incoming A).2).2)) ∧
    (∀ sp rest emb, sp ∉ rest → packageTweetEmbedding sp = some emb →
      (sp ∈ (dedupAux (sp :: rest) A).1 ↔
        ¬∃ e ∈ A, cosineSimQ emb e > 95/100)) ∧
    dedupPackages
        [embPackage 1 (9/10) (some [1, 0]), embPackage 2 (1/2) (some [1, 0]),
          embPackage 3 (2/5) (some [0, 1])] =
      [embPackage 1 (9/10) (some [1, 0]), embPackage 3 (2/5) (some [0, 1])] := by
  refine ⟨dedupAux_sublist incoming A,
    fun sp hm hn => dedupAux_fail_open incoming A sp hm hn,
    dedupAux_recorded incoming A,
    fun l2 => dedupAux_append incoming l2 A, ?_, ?_⟩
  · intro sp rest emb hsp hemb
    rw [dedupAux_cons_some sp rest A emb hemb]
    by_cases hdup : ∃ e ∈ A, cosineSimQ emb e > 95/100
    · rw [if_pos hdup]
      exact iff_of_false (fun h => hsp ((dedupAux_sublist rest A).subset h))
        (not_not_intro hdup)
    · rw [if_neg hdup]
      exact iff_of_true (List.mem_cons_self sp _) hdup
  · have hemb1 : packageTweetEmbedding (embPackage 1 (9/10) (some [1, 0])) =
        some [1, 0] := rfl
    have hemb2 : packageTweetEmbedding (embPackage 2 (1/2) (some [1, 0])) =
        some [1, 0] := rfl
    have hemb3 : packageTweetEmbedding (embPackage 3 (2/5) (some [0, 1])) =
        some [0, 1] := rfl
    unfold dedupPackages
    rw [dedupAux_cons_some _ _ _ _ hemb1, if_neg (by simp)]
    rw [dedupAux_cons_some _ _ _ _ hemb2, if_pos ?hdup]
    case hdup =>
      refine ⟨[1, 0], by simp, ?_⟩
      rw [cosineSimQ_same]
      norm_num
    rw [dedupAux_cons_some _ _ _ _ hemb3, if_neg ?hnew]
    case hnew =>
      rintro ⟨e, he, hgt⟩
      simp only [List.mem_append, List.mem_singleton, List.not_mem_nil, false_or] at he
      subst he
      rw [cosineSimQ_orth] at hgt
      norm_num at hgt
    simp [dedupAux]

theorem cross_package_dedup_contract_witness :
    (embPackage 7 (1/2) none ∈ [embPackage 7 (1/2) none] ∧
      packageTweetEmbedding (embPackage 7 (1/2) none) = none) ∧
    embPackage 7 (1/2) none ∈ (dedupAux [embPackage 7 (1/2) none] []).1 :=
  ⟨⟨List.mem_singleton_self _, rfl⟩,
    (cross_package_dedup_contract [embPackage 7 (1/2) none] []).2.1
      (embPackage 7 (1/2) none) (List.mem_singleton_self _) rfl⟩

/-! ### Broadcast Scheduler (`helpers/discord_bot.py`, lines 173-279)

With zero subscribed channels (lines 175-181) every correlation contained in
the deduplicated packages is marked sent and `0` is returned, with no
transport interaction at all.  Otherwise the sending loop formats and fans out
one message per package (transport effects are external to the model), marks
the package's correlations sent after the fan-out, and the function finally
returns `len(final_packages_to_send)`.  The transport-fatal login-failure
abort path, which stops before marking the remaining packages, is not
modelled; no claim depends on it. -/

def markPackageSent (db : DB) (package : List JoinedRow) : DB :=
  package.foldl (fun d c => mark_correlation_as_sent d c.correlationId) db

def markAllSent (db : DB) (packages : List ScoredPackage) : DB :=
  packages.foldl (fun d sp => markPackageSent d sp.package) db

def broadcastPhase (db : DB) (channels : List ℕ)
    (finalPackages : List ScoredPackage) : DB × ℕ :=
  if channels = [] then (markAllSent db finalPackages, 0)
  else (markAllSent db finalPackages, finalPackages.length)

lemma mark_correlation_as_sent_correlations (db : DB) (cid : ℕ) :
    (mark_correlation_as_sent db cid).correlations =
      db.correlations.map fun r =>
        if r.rowId == cid then { r with sentToDiscord := true, sentAtRecorded := true }
        else r := rfl

lemma markPackageSent_correlations (package : List JoinedRow) (db : DB) :
    (markPackageSent db package).correlations =
      db.correlations.map fun r =>
        if package.any (fun c => r.rowId == c.correlationId) then
          { r with sentToDiscord := true, sentAtRecorded := true }
        else r := by
  induction package generalizing db with
  | nil =>
    simp [markPackageSent]
  | cons c cs ih =>
    show (markPackageSent (mark_correlation_as_sent db c.correlationId) cs).correlations = _
    rw [ih, mark_correlation_as_sent_correlations, List.map_map]
    apply List.map_congr_left
    intro r _
    by_cases h1 : r.rowId == c.correlationId
    · by_cases h2 : cs.any fun d => r.rowId == d.correlationId <;>
        simp [Function.comp, h1, h2]
    · by_cases h2 : cs.any fun d => r.rowId == d.correlationId <;>
        simp [Function.comp, h1, h2]

lemma markAllSent_correlations (packages : List ScoredPackage) (db : DB) :
    (markAllSent db packages).correlations =
      db.correlations.map fun r =>
        if packages.any (fun sp => sp.package.any fun c => r.rowId == c.correlationId) then
          { r with sentToDiscord := true, sentAtRecorded := true }
        else r := by
  induction packages generalizing db with
  | nil =>
    simp [markAllSent]
  | cons sp sps ih =>
    show (markAllSent (markPackageSent db sp.package) sps).correlations = _
    rw [ih, markPackageSent_correlations, List.map_map]
    apply List.map_congr_left
    intro r _
    by_cases h1 : sp.package.any fun c => r.rowId == c.correlationId
    · by_cases h2 : sps.any fun q => q.package.any fun c => r.rowId == c.correlationId <;>
        simp [Function.comp, h1, h2]
    · by_cases h2 : sps.any fun q => q.package.any fun c => r.rowId == c.correlationId <;>
        simp [Function.comp, h1, h2]

lemma markPackageSent_tweets (package : List JoinedRow) (db : DB) :
    (markPackageSent db package).tweets = db.tweets := by
  induction package generalizing db with
  | nil => rfl
  | cons c cs ih => exact ih (mark_correlation_as_sent db c.correlationId)

lemma markPackageSent_markets (package : List JoinedRow) (db : DB) :
    (markPackageSent db package).markets = db.markets := by
  induction package generalizing db with
  | nil => rfl
  | cons c cs ih => exact ih (mark_correlation_as_sent db c.correlationId)

lemma markAllSent_tweets (packages : List ScoredPackage) (db : DB) :
    (markAllSent db packages).tweets = db.tweets := by
  induction packages generalizing db with
  | nil => rfl
  | cons sp sps ih =>
    show (markAllSent (markPackageSent db sp.package) sps).tweets = _
    rw [ih, markPackageSent_tweets]

lemma markAllSent_markets (packages : List ScoredPackage) (db : DB) :
    (markAllSent db packages).markets = db.markets := by
  induction packages generalizing db with
  | nil => rfl
  | cons sp sps ih =>
    show (markAllSent (markPackageSent db sp.package) sps).markets = _
    rw [ih, markPackageSent_markets]

/-- Claim C9: with no subscribed channel the broadcast phase reports zero
delivered, and the only state change is that exactly the correlation rows
referenced by the given (deduplicated) packages get their sent flag and sent
timestamp set — every contained correlation is consumed, nothing is deferred,
all other rows and tables are untouched. -/
theorem broadcast_scheduler_no_subscribers (db : DB)
    (finalPackages : List ScoredPackage) :
    (broadcastPhase db [] finalPackages).2 = 0 ∧
    (broadcastPhase db [] finalPackages).1.correlations =
      db.correlations.map (fun r =>
        if finalPackages.any (fun sp => sp.package.any fun c => r.rowId == c.correlationId)
        then { r with sentToDiscord := true, sentAtRecorded := true }
        else r) ∧
    (broadcastPhase db [] finalPackages).1.tweets = db.tweets ∧
    (broadcastPhase db [] finalPackages).1.markets = db.markets := by
  unfold broadcastPhase
  rw [if_pos rfl]
  exact ⟨rfl, markAllSent_correlations finalPackages db,
    markAllSent_tweets finalPackages db, markAllSent_markets finalPackages db⟩

/-! ### `send_new_correlations` end-to-end (`helpers/discord_bot.py`,
lines 94-279) and the embedding-persistence invariant -/

def refreshedRows (freshPrices : String → Option (List ℚ)) (db : DB) : List JoinedRow :=
  (get_unsent_correlations db).map (refreshRow freshPrices)

def scoredPackagesOf (freshPrices : String → Option (List ℚ)) (db : DB) :
    List ScoredPackage :=
  prioritizePackages (makeMessagePackages (refreshedRows freshPrices db))

noncomputable def finalPackagesOf (freshPrices : String → Option (List ℚ)) (db : DB) :
    List ScoredPackage :=
  dedupPackages (scoredPackagesOf freshPrices db)

/-- The whole of `send_new_correlations`: early return on no unsent rows,
otherwise price refresh, grouping, alpha scoring, cross-package
deduplication, and the broadcast phase. -/
noncomputable def send_new_correlations (freshPrices : String → Option (List ℚ))
    (channels : List ℕ) (db : DB) : DB × ℕ :=
  if get_unsent_correlations db = [] then (db, 0)
  else
    broadcastPhase (refreshDb freshPrices db (get_unsent_correlations db)) channels
      (finalPackagesOf freshPrices db)

/-- No tweet row carries an embedding. -/
def allTweetEmbeddingsNone (db : DB) : Prop := ∀ t ∈ db.tweets, t.embedding = none

lemma insert_tweets_cons (db : DB) (p : TweetPayload) (ps : List TweetPayload) :
    insert_tweets db (p :: ps) =
      insert_tweets
        (if db.tweets.any fun t => t.id == p.id then db
         else
           { db with
             tweets := db.tweets ++
               [{ id := p.id, text := p.text, tweetUrl := p.url,
                  authorName := p.authorName, authorUrl := p.authorUrl,
                  createdAtUtc := p.createdAtUtc, embedding := none,
                  isProcessed := false }] })
        ps := rfl

lemma insert_tweets_embeddings (payloads : List TweetPayload) (db : DB)
    (h : allTweetEmbeddingsNone db) :
    allTweetEmbeddingsNone (insert_tweets db payloads) := by
  induction payloads generalizing db with
  | nil => exact h
  | cons p ps ih =>
    rw [insert_tweets_cons]
    apply ih
    split
    · exact h
    · intro t ht
      rcases List.mem_append.mp ht with h1 | h1
      · exact h t h1
      · rcases List.mem_singleton.mp h1 with rfl
        rfl

lemma run_engine_embeddings (embed : String → List ℚ)
    (adjudicate : TweetRow → List MarketRow → Except String (List ScoredCorrelation))
    (db : DB) (h : allTweetEmbeddingsNone db) :
    allTweetEmbeddingsNone (run_correlation_engine embed adjudicate db) := by
  intro t ht
  unfold run_correlation_engine at ht
  rw [engineFold_tweets] at ht
  rcases List.mem_map.mp ht with ⟨u, hu, rfl⟩
  split
  · exact h u hu
  · exact h u hu

lemma get_unsent_tweetEmbedding (db : DB) (h : allTweetEmbeddingsNone db) :
    ∀ r ∈ get_unsent_correlations db, r.tweetEmbedding = none := by
  intro r hr
  unfold get_unsent_correlations at hr
  rw [mem_sortOrdered] at hr
  rcases List.mem_filterMap.mp hr with ⟨c, _, hjoin⟩
  unfold joinRow at hjoin
  rcases hfind : db.tweets.find? (fun t => t.id == c.tweetId) with _ | t <;>
    rw [hfind] at hjoin
  · rcases hfind2 : db.markets.find? (fun m => m.id == c.marketId) with _ | m <;>
      rw [hfind2] at hjoin <;> cases hjoin
  · rcases hfind2 : db.markets.find? (fun m => m.id == c.marketId) with _ | m <;>
      rw [hfind2] at hjoin
    · cases hjoin
    · have ht : t ∈ db.tweets := List.mem_of_find?_eq_some hfind
      rcases Option.some.inj hjoin with rfl
      exact h t ht

lemma refreshRow_tweetEmbedding (freshPrices : String → Option (List ℚ))
    (r : JoinedRow) : (refreshRow freshPrices r).tweetEmbedding = r.tweetEmbedding := by
  rcases hp : freshPrices r.marketId with _ | prices
  · simp [refreshRow, hp]
  · by_cases h2 : 2 ≤ prices.length <;> simp [refreshRow, hp, h2]

lemma groupRuns_mem (rows : List JoinedRow) (g : List JoinedRow)
    (hg : g ∈ groupRuns rows) (r : JoinedRow) (hr : r ∈ g) : r ∈ rows := by
  induction rows generalizing g with
  | nil => cases hg
  | cons x xs ih =>
    have hstep : groupRuns (x :: xs) = groupStep x (groupRuns xs) := rfl
    rw [hstep] at hg
    rcases hacc : groupRuns xs with _ | ⟨first, rest⟩
    · rw [hacc] at hg
      simp only [groupStep] at hg
      rcases List.mem_singleton.mp hg with rfl
      rcases List.mem_singleton.mp hr with rfl
      exact List.mem_cons_self _ _
    · rcases first with _ | ⟨s, g'⟩
      · rw [hacc] at hg
        simp only [groupStep] at hg
        rcases List.mem_cons.mp hg with rfl | hg2
        · rcases List.mem_singleton.mp hr with rfl
          exact List.mem_cons_self _ _
        · refine List.mem_cons_of_mem x (ih g ?_ hr)
          rw [hacc]
          exact List.mem_cons_of_mem [] hg2
      · rw [hacc] at hg
        simp only [groupStep] at hg
        split at hg
        · rcases List.mem_cons.mp hg with rfl | hg2
          · rcases List.mem_cons.mp hr with rfl | hr2
            · exact List.mem_cons_self _ _
            · refine List.mem_cons_of_mem x (ih (s :: g') ?_ hr2)
              rw [hacc]
              exact List.mem_cons_self _ _
          · refine List.mem_cons_of_mem x (ih g ?_ hr)
            rw [hacc]
            exact List.mem_cons_of_mem _ hg2
        · rcases List.mem_cons.mp hg with rfl | hg2
          · rcases List.mem_singleton.mp hr with rfl
            exact List.mem_cons_self _ _
          · refine List.mem_cons_of_mem x (ih g ?_ hr)
            rw [hacc]
            exact hg2

lemma packageTweetEmbedding_scorePackage (g : List JoinedRow)
    (h : ∀ r ∈ g, r.tweetEmbedding = none) :
    packageTweetEmbedding (scorePackage g) = none := by
  unfold scorePackage
  rcases hs : sortOrdered relevanceDesc g with _ | ⟨top, rest⟩
  · rfl
  · have htop : top ∈ g :=
      (sortOrdered_perm relevanceDesc g).mem_iff.mp (hs ▸ List.mem_cons_self top rest)
    show top.tweetEmbedding = none
    exact h top htop

lemma dedupAux_all_none (l : List ScoredPackage) (A : List (List ℚ))
    (h : ∀ sp ∈ l, packageTweetEmbedding sp = none) : dedupAux l A = (l, A) := by
  induction l generalizing A with
  | nil => rfl
  | cons sp rest ih =>
    rw [dedupAux_cons_none sp rest A (h sp (List.mem_cons_self sp rest)),
      ih A fun q hq => h q (List.mem_cons_of_mem sp hq)]

/-- Claim C6: the pipeline never persists a tweet embedding — tweet insertion
writes rows with a NULL embedding, a correlation-engine run leaves every
tweet's embedding column unchanged (NULL stays NULL), so every joined unsent
row carries a NULL `tweet_embedding`, every scored package's embedding lookup
yields `none`, and the Cross-Package Deduplicator's fail-open branch accepts
every package: the deduplicated list equals the prioritized list. -/
theorem tweet_embeddings_never_persisted (db : DB) (payloads : List TweetPayload)
    (embed : String → List ℚ)
    (adjudicate : TweetRow → List MarketRow → Except String (List ScoredCorrelation))
    (freshPrices : String → Option (List ℚ))
    (h : allTweetEmbeddingsNone db) :
    allTweetEmbeddingsNone (insert_tweets db payloads) ∧
    allTweetEmbeddingsNone (run_correlation_engine embed adjudicate db) ∧
    (∀ r ∈ get_unsent_correlations db, r.tweetEmbedding = none) ∧
    (∀ sp ∈ scoredPackagesOf freshPrices db, packageTweetEmbedding sp = none) ∧
    finalPackagesOf freshPrices db = scoredPackagesOf freshPrices db := by
  have hsp : ∀ sp ∈ scoredPackagesOf freshPrices db, packageTweetEmbedding sp = none := by
    intro sp hsp
    unfold scoredPackagesOf prioritizePackages at hsp
    rw [mem_sortOrdered] at hsp
    rcases List.mem_map.mp hsp with ⟨g, hg, rfl⟩
    apply packageTweetEmbedding_scorePackage
    intro r hr
    have hrows : r ∈ refreshedRows freshPrices db := by
      have := groupRuns_mem _ g hg r hr
      unfold makeMessagePackages at this
      exact (mem_sortOrdered _ _ r).mp this
    unfold refreshedRows at hrows
    rcases List.mem_map.mp hrows with ⟨r0, hr0, rfl⟩
    rw [refreshRow_tweetEmbedding]
    exact get_unsent_tweetEmbedding db h r0 hr0
  refine ⟨insert_tweets_embeddings payloads db h,
    run_engine_embeddings embed adjudicate db h,
    get_unsent_tweetEmbedding db h, hsp, ?_⟩
  unfold finalPackagesOf dedupPackages
  rw [dedupAux_all_none _ [] hsp]

theorem tweet_embeddings_never_persisted_witness :
    allTweetEmbeddingsNone engineDemoDB ∧
    (allTweetEmbeddingsNone (insert_tweets engineDemoDB []) ∧
      allTweetEmbeddingsNone
        (run_correlation_engine (fun _ => []) (fun _ _ => .ok []) engineDemoDB) ∧
      (∀ r ∈ get_unsent_correlations engineDemoDB, r.tweetEmbedding = none) ∧
      (∀ sp ∈ scoredPackagesOf (fun _ => none) engineDemoDB,
        packageTweetEmbedding sp = none) ∧
      finalPackagesOf (fun _ => none) engineDemoDB =
        scoredPackagesOf (fun _ => none) engineDemoDB) :=
  have h : allTweetEmbeddingsNone engineDemoDB := by
    intro t ht
    rcases List.mem_singleton.mp ht with rfl
    rfl
  ⟨h, tweet_embeddings_never_persisted engineDemoDB [] (fun _ => [])
    (fun _ _ => .ok []) (fun _ => none) h⟩

/-! ### News Deduplicator (`helpers/deduplication.py`)

`deduplicate_raw_tweets` receives the raw tweet batch before persistence and
delegates duplicate grouping to the generative judgment chain; the chain's
outcome (raised exception / `None` / a list of id groups) is the
`DedupOutcome` oracle value.  A group id that is absent from the batch raises
`KeyError` at the `tweets_by_id[tid]` lookup, outside the `try` block, and
escapes the function — modelled by `Except.error`. -/

structure RawTweet where
  id : String
  text : String
  likeCount : Option ℕ
  retweetCount : Option ℕ
  replyCount : Option ℕ
  deriving Repr, DecidableEq

/-- `get_tweet_engagement` (lines 58-61):
`likeCount + retweetCount * 2 + replyCount`, each count defaulting to `0`. -/
def get_tweet_engagement (t : RawTweet) : ℕ :=
  t.likeCount.getD 0 + t.retweetCount.getD 0 * 2 + t.replyCount.getD 0

inductive DedupOutcome where
  | failure : DedupOutcome
  | nullResponse : DedupOutcome
  | groups : List (List String) → DedupOutcome
  deriving Repr, DecidableEq

/-- The `tweets_by_id` dict lookup (line 103).  A Python dict comprehension
keeps the last binding for a repeated key, hence `find?` over the reversed
batch. -/
def tweetById (raw : List RawTweet) (tid : String) : Option RawTweet :=
  raw.reverse.find? fun t => t.id == tid

/-- All lookups of one group's ids (the list comprehension inside `max` on
line 111); `none` models the `KeyError` on the first id missing from the
batch. -/
def lookupAll (raw : List RawTweet) : List String → Option (List RawTweet)
  | [] => some []
  | tid :: tids =>
      match tweetById raw tid, lookupAll raw tids with
      | some t, some ts => some (t :: ts)
      | _, _ => none

/-- Python's `max(..., key=...)` keeps the first of several maxima. -/
def maxByEngagement (hd : RawTweet) (tl : List RawTweet) : RawTweet :=
  tl.foldl
    (fun best t =>
      if get_tweet_engagement t > get_tweet_engagement best then t else best)
    hd

/-- The per-group body of the loop on lines 105-121: groups with fewer than
two ids are skipped; otherwise every id other than the highest-engagement
member's id joins the discard set. -/
def groupDiscards (raw : List RawTweet) (g : List String) : Option (List String) :=
  if g.length < 2 then some []
  else
    match lookupAll raw g with
    | none => none
    | some [] => some []
    | some (m :: ms) =>
        some (g.filter fun tid => !(tid == (maxByEngagement m ms).id))

def discardsAll (raw : List RawTweet) : List (List String) → Option (List String)
  | [] => some []
  | g :: gs =>
      match groupDiscards raw g, discardsAll raw gs with
      | some d1, some d2 => some (d1 ++ d2)
      | _, _ => none

/-- `deduplicate_raw_tweets` (lines 63-127). -/
def deduplicate_raw_tweets (outcome : DedupOutcome) (raw : List RawTweet) :
    Except Unit (List RawTweet) :=
  if raw.length < 2 then .ok raw
  else
    match outcome with
    | .failure => .ok raw
    | .nullResponse => .ok raw
    | .groups gs =>
        if gs = [] then .ok raw
        else
          match discardsAll raw gs with
          | none => .error ()
          | some discardIds => .ok (raw.filter fun t => !(discardIds.contains t.id))

lemma maxByEngagement_cons (hd t : RawTweet) (ts : List RawTweet) :
    maxByEngagement hd (t :: ts) =
      maxByEngagement
        (if get_tweet_engagement t > get_tweet_engagement hd then t else hd) ts := rfl

lemma maxByEngagement_mem (hd : RawTweet) (tl : List RawTweet) :
    maxByEngagement hd tl ∈ hd :: tl := by
  induction tl generalizing hd with
  | nil => exact List.mem_singleton_self hd
  | cons t ts ih =>
    rw [maxByEngagement_cons]
    rcases List.mem_cons.mp
        (ih (if get_tweet_engagement t > get_tweet_engagement hd then t else hd)) with
      h | h
    · rw [h]
      split
      · exact List.mem_cons_of_mem hd (List.mem_cons_self t ts)
      · exact List.mem_cons_self hd _
    · exact List.mem_cons_of_mem hd (List.mem_cons_of_mem t h)

lemma maxByEngagement_ge (hd : RawTweet) (tl : List RawTweet) :
    ∀ u ∈ hd :: tl,
      get_tweet_engagement u ≤ get_tweet_engagement (maxByEngagement hd tl) := by
  induction tl generalizing hd with
  | nil =>
    intro u hu
    rcases List.mem_singleton.mp hu with rfl
    exact le_refl _
  | cons t ts ih =>
    intro u hu
    rw [maxByEngagement_cons]
    set b := if get_tweet_engagement t > get_tweet_engagement hd then t else hd with hb
    have hhd : get_tweet_engagement hd ≤ get_tweet_engagement b := by
      rw [hb]
      split
      · rename_i hgt
        exact le_of_lt hgt
      · exact le_refl _
    have hth : get_tweet_engagement t ≤ get_tweet_engagement b := by
      rw [hb]
      split
      · exact le_refl _
      · rename_i hgt
        exact le_of_not_lt hgt
    have hbmax := ih b b (List.mem_cons_self b ts)
    rcases List.mem_cons.mp hu with rfl | hu2
    · exact le_trans hhd hbmax
    · rcases List.mem_cons.mp hu2 with rfl | hu3
      · exact le_trans hth hbmax
      · exact ih b u (List.mem_cons_of_mem b hu3)

lemma tweetById_mem (raw : List RawTweet) (tid : String) (t : RawTweet)
    (h : tweetById raw tid = some t) : t ∈ raw :=
  List.mem_reverse.mp (List.mem_of_find?_eq_some h)

lemma lookupAll_mem (raw : List RawTweet) (g : List String) (ms : List RawTweet)
    (h : lookupAll raw g = some ms) : ∀ m ∈ ms, m ∈ raw := by
  induction g generalizing ms with
  | nil =>
    rcases Option.some.inj h with rfl
    intro m hm
    cases hm
  | cons tid tids ih =>
    unfold lookupAll at h
    rcases h1 : tweetById raw tid with _ | t <;> rw [h1] at h
    · cases h
    · rcases h2 : lookupAll raw tids with _ | ts <;> rw [h2] at h
      · cases h
      · rcases Option.some.inj h with rfl
        intro m hm
        rcases List.mem_cons.mp hm with rfl | hm2
        · exact tweetById_mem raw tid m h1
        · exact ih ts h2 m hm2

lemma lookupAll_lookup (raw : List RawTweet) (g : List String) (ms : List RawTweet)
    (h : lookupAll raw g = some ms) :
    ∀ tid ∈ g, ∃ m ∈ ms, tweetById raw tid = some m := by
  induction g generalizing ms with
  | nil =>
    intro tid htid
    cases htid
  | cons tid0 tids ih =>
    unfold lookupAll at h
    rcases h1 : tweetById raw tid0 with _ | t <;> rw [h1] at h
    · cases h
    · rcases h2 : lookupAll raw tids with _ | ts <;> rw [h2] at h
      · cases h
      · rcases Option.some.inj h with rfl
        intro tid htid
        rcases List.mem_cons.mp htid with rfl | htid2
        · exact ⟨t, List.mem_cons_self t ts, h1⟩
        · rcases ih ts h2 tid htid2 with ⟨m, hm, hm2⟩
          exact ⟨m, List.mem_cons_of_mem t hm, hm2⟩

lemma find?_id_unique (l : List RawTweet) (hnd : (l.map fun t => t.id).Nodup)
    (u : RawTweet) (hu : u ∈ l) : l.find? (fun t => t.id == u.id) = some u := by
  induction l with
  | nil => cases hu
  | cons v l ih =>
    rw [List.map_cons, List.nodup_cons] at hnd
    rcases List.mem_cons.mp hu with rfl | hu2
    · rw [List.find?_cons_of_pos]
      simp
    · by_cases hvid : v.id = u.id
      · exact absurd (hvid ▸ List.mem_map_of_mem (fun t => t.id) hu2) hnd.1
      · rw [List.find?_cons_of_neg]
        · exact ih hnd.2 hu2
        · simp [hvid]

lemma tweetById_of_nodup (raw : List RawTweet)
    (hnd : (raw.map fun t => t.id).Nodup) (u : RawTweet) (hu : u ∈ raw) :
    tweetById raw u.id = some u := by
  unfold tweetById
  apply find?_id_unique
  · rw [List.map_reverse]
    exact List.nodup_reverse.mpr hnd
  · exact List.mem_reverse.mpr hu

lemma id_unique (raw : List RawTweet) (hnd : (raw.map fun t => t.id).Nodup)
    (t b : RawTweet) (ht : t ∈ raw) (hb : b ∈ raw) (hid : t.id = b.id) : t = b := by
  have h1 := tweetById_of_nodup raw hnd t ht
  have h2 := tweetById_of_nodup raw hnd b hb
  rw [hid] at h1
  exact Option.some.inj (h1.symm.trans h2)

lemma groupDiscards_subset (raw : List RawTweet) (g : List String) (d : List String)
    (h : groupDiscards raw g = some d) : ∀ tid ∈ d, tid ∈ g := by
  unfold groupDiscards at h
  split at h
  · rcases Option.some.inj h with rfl
    intro tid htid
    cases htid
  · rcases h1 : lookupAll raw g with _ | ms <;> rw [h1] at h
    · cases h
    · rcases ms with _ | ⟨m, ms'⟩
      · rcases Option.some.inj h with rfl
        intro tid htid
        cases htid
      · rcases Option.some.inj h with rfl
        intro tid htid
        exact List.mem_of_mem_filter htid

lemma discardsAll_sub (raw : List RawTweet) (gs : List (List String)) (d : List String)
    (h : discardsAll raw gs = some d) : ∀ tid ∈ d, ∃ g ∈ gs, tid ∈ g := by
  induction gs generalizing d with
  | nil =>
    rcases Option.some.inj h with rfl
    intro tid htid
    cases htid
  | cons g gs ih =>
    unfold discardsAll at h
    rcases h1 : groupDiscards raw g with _ | d1 <;> rw [h1] at h
    · cases h
    · rcases h2 : discardsAll raw gs with _ | d2 <;> rw [h2] at h
      · cases h
      · rcases Option.some.inj h with rfl
        intro tid htid
        rcases List.mem_append.mp htid with hm | hm
        · exact ⟨g, List.mem_cons_self g gs, groupDiscards_subset raw g d1 h1 tid hm⟩
        · rcases ih d2 h2 tid hm with ⟨g', hg', htid'⟩
          exact ⟨g', List.mem_cons_of_mem g hg', htid'⟩

lemma discardsAll_part (raw : List RawTweet) (gs : List (List String)) (d : List String)
    (h : discardsAll raw gs = some d) :
    ∀ g ∈ gs, ∃ dg, groupDiscards raw g = some dg ∧ ∀ x ∈ dg, x ∈ d := by
  induction gs generalizing d with
  | nil =>
    intro g hg
    cases hg
  | cons g0 gs ih =>
    unfold discardsAll at h
    rcases h1 : groupDiscards raw g0 with _ | d1 <;> rw [h1] at h
    · cases h
    · rcases h2 : discardsAll raw gs with _ | d2 <;> rw [h2] at h
      · cases h
      · rcases Option.some.inj h with rfl
        intro g hg
        rcases List.mem_cons.mp hg with rfl | hg2
        · exact ⟨d1, h1, fun x hx => List.mem_append_left d2 hx⟩
        · rcases ih d2 h2 g hg2 with ⟨dg, hdg, hsub⟩
          exact ⟨dg, hdg, fun x hx => List.mem_append_right d1 (hsub x hx)⟩

def demoTweetA : RawTweet :=
  { id := "A", text := "house passes bill", likeCount := some 10,
    retweetCount := none, replyCount := none }

def demoTweetB : RawTweet :=
  { id := "B", text := "lawmakers approve legislation", likeCount := some 20,
    retweetCount := none, replyCount := none }

def demoTweetC : RawTweet :=
  { id := "C", text := "sanctions announced", likeCount := none,
    retweetCount := none, replyCount := none }

/-- Claim C7: the News Deduplicator is a passthrough when the batch has fewer
than two items, the judgment call fails, returns null, or returns no groups;
otherwise it returns an order-preserving sub-batch in which items named by no
group pass through, and (for distinct ids) any survivor named by a group of at
least two ids carries the maximal engagement weight
(`likes + 2·reshares + replies`, missing counts `0`) among the batch members
that group names; in the three-item scenario with A and B grouped,
`weight A = 10`, `weight B = 20` and C ungrouped, the output is exactly
`[B, C]`. -/
theorem news_deduplicator_contract (raw : List RawTweet) (gs : List (List String)) :
    (raw.length < 2 → ∀ o, deduplicate_raw_tweets o raw = .ok raw) ∧
    deduplicate_raw_tweets .failure raw = .ok raw ∧
    deduplicate_raw_tweets .nullResponse raw = .ok raw ∧
    deduplicate_raw_tweets (.groups []) raw = .ok raw ∧
    (∀ out, deduplicate_raw_tweets (.groups gs) raw = .ok out →
      out.Sublist raw ∧
      (∀ t ∈ raw, (∀ g ∈ gs, t.id ∉ g) → t ∈ out) ∧
      ((raw.map fun t => t.id).Nodup →
        ∀ g ∈ gs, 2 ≤ g.length → ∀ t ∈ out, t.id ∈ g →
          ∀ u ∈ raw, u.id ∈ g →
            get_tweet_engagement u ≤ get_tweet_engagement t)) ∧
    deduplicate_raw_tweets (.groups [["A", "B"]])
        [demoTweetA, demoTweetB, demoTweetC] =
      .ok [demoTweetB, demoTweetC] := by
  refine ⟨?_, ?_, ?_, ?_, ?_, ?_⟩
  · intro hlen o
    unfold deduplicate_raw_tweets
    rw [if_pos hlen]
  · unfold deduplicate_raw_tweets
    split <;> rfl
  · unfold deduplicate_raw_tweets
    split <;> rfl
  · unfold deduplicate_raw_tweets
    split <;> rfl
  · intro out hout
    by_cases hlen : raw.length < 2
    · unfold deduplicate_raw_tweets at hout
      rw [if_pos hlen] at hout
      rcases Except.ok.inj hout with rfl
      refine ⟨List.Sublist.refl raw, fun t ht _ => ht, ?_⟩
      intro _ g _ _ t ht _ u hu _
      rcases raw with _ | ⟨a, raw'⟩
      · cases ht
      · rcases raw' with _ | ⟨b, raw''⟩
        · rcases List.mem_singleton.mp ht with rfl
          rcases List.mem_singleton.mp hu with rfl
          exact le_refl _
        · exact absurd hlen (by simp)
    · simp only [deduplicate_raw_tweets] at hout
      rw [if_neg hlen] at hout
      by_cases hgs : gs = []
      · subst hgs
        rw [if_pos rfl] at hout
        rcases Except.ok.inj hout with rfl
        refine ⟨List.Sublist.refl raw, fun t ht _ => ht, ?_⟩
        intro _ g hg
        cases hg
      · rw [if_neg hgs] at hout
        rcases hd : discardsAll raw gs with _ | d <;> rw [hd] at hout
        · cases hout
        · rcases Except.ok.inj hout with rfl
          refine ⟨List.filter_sublist raw, ?_, ?_⟩
          · intro t ht hno
            rw [List.mem_filter]
            refine ⟨ht, ?_⟩
            rw [Bool.not_eq_eq_eq_not, Bool.not_true]
            by_contra hcon
            have hmem : t.id ∈ d := by
              have := Bool.not_eq_false _ |>.mp hcon
              simpa [List.contains] using this
            rcases discardsAll_sub raw gs d hd t.id hmem with ⟨g, hg, htid⟩
            exact hno g hg htid
          · intro hnd g hg hglen t ht htid u hu huid
            rcases discardsAll_part raw gs d hd g hg with ⟨dg, hdg, hsubd⟩
            rw [List.mem_filter] at ht
            have htraw := ht.1
            have htid_not : t.id ∉ d := by
              intro hmem
              have hfalse := ht.2
              rw [Bool.not_eq_eq_eq_not, Bool.not_true] at hfalse
              have : d.contains t.id = true := by
                simpa [List.contains] using hmem
              rw [this] at hfalse
              cases hfalse
            unfold groupDiscards at hdg
            rw [if_neg (by omega)] at hdg
            rcases h1 : lookupAll raw g with _ | ms <;> rw [h1] at hdg
            · cases hdg
            · rcases ms with _ | ⟨m, ms'⟩
              · rcases g with _ | ⟨tid0, g'⟩
                · simp at hglen
                · unfold lookupAll at h1
                  rcases h2 : tweetById raw tid0 with _ | t0 <;> rw [h2] at h1
                  · cases h1
                  · rcases h3 : lookupAll raw g' with _ | ts <;> rw [h3] at h1
                    · cases h1
                    · exact absurd (Option.some.inj h1) (by simp)
              · rcases Option.some.inj hdg with rfl
                have hid : t.id = (maxByEngagement m ms').id := by
                  by_contra hne
                  apply htid_not
                  apply hsubd
                  rw [List.mem_filter]
                  exact ⟨htid, by simp [hne]⟩
                have hbest_mem : maxByEngagement m ms' ∈ raw :=
                  lookupAll_mem raw g (m :: ms') h1 _ (maxByEngagement_mem m ms')
                have hteq : t = maxByEngagement m ms' :=
                  id_unique raw hnd t _ htraw hbest_mem hid
                rcases lookupAll_lookup raw g (m :: ms') h1 u.id huid with ⟨mu, hmu, hmu2⟩
                have hmu_eq : mu = u := by
                  rw [tweetById_of_nodup raw hnd u hu] at hmu2
                  exact (Option.some.inj hmu2).symm
                rw [hteq, ← hmu_eq]
                exact maxByEngagement_ge m ms' mu hmu
  · rfl

theorem news_deduplicator_contract_witness :
    (deduplicate_raw_tweets (.groups [["A", "B"]])
        [demoTweetA, demoTweetB, demoTweetC] =
      .ok [demoTweetB, demoTweetC]) ∧
    List.Sublist [demoTweetB, demoTweetC] [demoTweetA, demoTweetB, demoTweetC] :=
  ⟨rfl,
   ((news_deduplicator_contract [demoTweetA, demoTweetB, demoTweetC]
        [["A", "B"]]).2.2.2.2.1 [demoTweetB, demoTweetC] rfl).1⟩

/-! ### Market insertion (`helpers/database.py`, `insert_markets`,
lines 113-173)

The loop zips payloads with embeddings and builds insert tuples inside a
`try` whose `except` clause catches exactly
`(json.JSONDecodeError, IndexError, TypeError, KeyError)` and skips the
offending record.  The locals `parent_slug` and `parent_event_id` are
assigned only inside the `if isinstance(events, list) and len(events) > 0`
branch but read unconditionally afterwards, and they persist across loop
iterations; reading them while unbound raises `UnboundLocalError`, which the
`except` tuple does not catch, so it escapes `insert_markets` before
`executemany` runs.  The loop state therefore carries both locals as
`Option (Option String)` (outer `none` = never bound) and the accumulated
records; `Except.error` models the escaping exception.

`f"...{x}"` applied to Python `None` prints `None` (`pyStr`); `if event_slug:`
is Python truthiness (`None` and `""` are falsy).  `full_data_json` (a dump of
the raw payload) is not modelled.  The final `INSERT OR IGNORE` executemany
silently drops rows violating any constraint (duplicate id, NULL in a NOT
NULL column); the SQLite quirk that a NULL TEXT PRIMARY KEY is accepted is
outside the model and exercised by no claim. -/

def pyStr (s : Option String) : String :=
  match s with
  | some s => s
  | none => "None"

def truthy (s : Option String) : Bool :=
  match s with
  | some s => !(s == "")
  | none => false

structure EventPayload where
  ticker : Option String
  eventId : Option String
  deriving Repr, DecidableEq

inductive PricesField where
  | absent : PricesField
  | malformed : PricesField
  | prices : List ℚ → PricesField
  deriving Repr, DecidableEq

structure MarketPayload where
  id : Option String
  question : Option String
  description : Option String
  slug : Option String
  image : Option String
  outcomePrices : PricesField
  endDate : Option String
  events : Option (List EventPayload)
  deriving Repr, DecidableEq

structure MarketInsertRecord where
  id : Option String
  parentEventId : Option String
  question : Option String
  slug : Option String
  marketUrl : String
  image : Option String
  yesPrice : ℚ
  noPrice : ℚ
  endDate : Option String
  embeddingText : String
  embedding : List ℚ
  deriving Repr, DecidableEq

structure InsertLoopState where
  parentSlug : Option (Option String)
  parentEventId : Option (Option String)
  records : List MarketInsertRecord
  deriving Repr, DecidableEq

/-- The record-building body for one market once `json.loads` succeeded (the
parsed price list; `[]` for the `'[]'` default of a missing key). -/
def insertLoopBody (st : InsertLoopState) (market : MarketPayload)
    (embedding : List ℚ) (prices : List ℚ) : Except Unit InsertLoopState :=
  let yesPrice : ℚ := if 0 < prices.length then prices.getD 0 0 else 0
  let noPrice : ℚ := if 1 < prices.length then prices.getD 1 0 else 0
  let embeddingText :=
    "Question: " ++ pyStr market.question ++ "\nDescription: " ++
      pyStr market.description
  let st1 :=
    match market.events with
    | some (e :: _) =>
        let eventSlug := e.ticker
        { st with
          parentSlug := some (if truthy eventSlug then eventSlug else market.slug),
          parentEventId := some e.eventId }
    | _ => st
  match st1.parentSlug, st1.parentEventId with
  | some ps, some pei =>
      .ok
        { st1 with
          records := st1.records ++
            [{ id := market.id, parentEventId := pei, question := market.question,
               slug := market.slug,
               marketUrl := "https://polymarket.com/event/" ++ pyStr ps,
               image := market.image, yesPrice := yesPrice, noPrice := noPrice,
               endDate := market.endDate, embeddingText := embeddingText,
               embedding := embedding }] }
  | _, _ => .error ()

def insertLoopStep (st : InsertLoopState) (pair : MarketPayload × List ℚ) :
    Except Unit InsertLoopState :=
  match pair.1.outcomePrices with
  | .malformed => .ok st
  | .absent => insertLoopBody st pair.1 pair.2 []
  | .prices l => insertLoopBody st pair.1 pair.2 l

def insertLoop (pairs : List (MarketPayload × List ℚ)) (st : InsertLoopState) :
    Except Unit InsertLoopState :=
  match pairs with
  | [] => .ok st
  | p :: ps =>
      match insertLoopStep st p with
      | .error e => .error e
      | .ok st' => insertLoop ps st'

/-- One `INSERT OR IGNORE` row: skipped on a duplicate id or a NULL in a NOT
NULL column (`question`, `slug`, `end_date_utc`; `market_url` is always a
string). -/
def insertRecordRow (db : DB) (r : MarketInsertRecord) : DB :=
  match r.id, r.question, r.slug, r.endDate with
  | some i, some q, some sl, some ed =>
      if db.markets.any (fun m => m.id == i) then db
      else
        { db with
          markets := db.markets ++
            [{ id := i, question := q, slug := sl, marketUrl := r.marketUrl,
               parentEventId := r.parentEventId, imageUrl := r.image,
               yesPrice := r.yesPrice, noPrice := r.noPrice, endDateUtc := ed,
               embeddingText := r.embeddingText, embedding := some r.embedding,
               isActive := true }] }
  | _, _, _, _ => db

def insert_markets (db : DB) (marketsData : List MarketPayload)
    (embeddings : List (List ℚ)) : Except Unit DB :=
  if marketsData.isEmpty then .ok db
  else
    match insertLoop (marketsData.zip embeddings) ⟨none, none, []⟩ with
    | .error e => .error e
    | .ok st => .ok (st.records.foldl insertRecordRow db)

def demoMarketGood : MarketPayload :=
  { id := some "m1", question := some "q1", description := some "d1",
    slug := some "s1", image := none, outcomePrices := .prices [1/2, 1/2],
    endDate := some "2030-01-01", events := some [⟨some "TICK", some "ev1"⟩] }

def demoMarketNoEvents : MarketPayload :=
  { id := some "m2", question := some "q2", description := some "d2",
    slug := some "s2", image := none, outcomePrices := .prices [3/10, 7/10],
    endDate := some "2030-01-01", events := none }

def demoMarketBadJson : MarketPayload :=
  { id := some "m3", question := some "q3", description := some "d3",
    slug := some "s3", image := none, outcomePrices := .malformed,
    endDate := some "2030-01-01", events := some [⟨some "T3", some "ev3"⟩] }

def emptyMarketsDB : DB :=
  { markets := [], tweets := [], correlations := [], nextCorrelationRowId := 1 }

/-- Claim C10 evaluated at the failing input (this claim is a code bug): a
batch whose first payload has no well-formed `events` list makes
`insert_markets` raise (`UnboundLocalError` on `parent_slug`, absent from the
caught exception tuple) and nothing at all is inserted — the well-formed
second record included; by contrast a record whose prices fail `json.loads` is
skipped while the rest of the batch is inserted, and a no-`events` record
coming after a well-formed one does not raise but silently inherits the
previous record's `parent_event_id` instead of being skipped. -/
theorem insert_markets_unbound_local_bug :
    insert_markets emptyMarketsDB [demoMarketNoEvents, demoMarketGood]
        [[1], [1]] = .error () ∧
    (insert_markets emptyMarketsDB [demoMarketBadJson, demoMarketGood]
        [[1], [1]]).map (fun db => db.markets.map fun m => m.id) = .ok ["m1"] ∧
    (insert_markets emptyMarketsDB [demoMarketGood, demoMarketNoEvents]
        [[1], [1]]).map
        (fun db => db.markets.map fun m => (m.id, m.parentEventId)) =
      .ok [("m1", some "ev1"), ("m2", some "ev1")] := by
  refine ⟨rfl, rfl, rfl⟩

end PolymarketAlpha
